import Mathlib

set_option maxHeartbeats 1000000

/-
  Verification development for the GLSCLP listing pipeline.

  Shallow embedding of the two core modules:
    - src/title_builder.py  (title assembly, serial canonicalization, drop policy)
    - src/pipeline.py       (field normalizer, item-specifics derivation)

  Python dynamic values are modelled by `JVal` (JSON-like values).  Python
  strings are modelled by `String` / `List Char`; `len` on a Python `str`
  counts characters, matching `List.length` on `String.data`.  Python's
  whitespace class and `str.isdigit` / `str.lower` are modelled on their
  ASCII fragments, which is exact for all data the rules inspect.
-/

/-! ## Character classes -/

/-- Python whitespace (`\s`, `str.strip`, `str.split`), ASCII fragment. -/
def isPyWs (c : Char) : Bool :=
  c = ' ' || c = '\t' || c = '\n' || c = '\r' || c = '\x0b' || c = '\x0c'

/-- Python word character (`\w`), ASCII fragment: letters, digits, underscore. -/
def isWordChar (c : Char) : Bool :=
  c.isAlphanum || c = '_'

/-! ## Python string primitives on `List Char` -/

/-- Remove trailing characters satisfying `isPyWs` (right half of `str.strip`). -/
def trailStripL : List Char → List Char
  | [] => []
  | c :: cs =>
    match trailStripL cs with
    | [] => if isPyWs c then [] else [c]
    | d :: r => c :: d :: r

/-- Python `str.strip()`: drop leading and trailing whitespace. -/
def pyStripL (l : List Char) : List Char :=
  trailStripL (l.dropWhile isPyWs)

/-- Python `str.strip()` on `String`. -/
def pyStrip (s : String) : String :=
  ⟨pyStripL s.data⟩

/-- Python `str.lower()`, ASCII fragment. -/
def pyLower (s : String) : String :=
  ⟨s.data.map Char.toLower⟩

/-- Python `str.isdigit()` (ASCII fragment): nonempty and all digits. -/
def pyIsDigit (l : List Char) : Bool :=
  !l.isEmpty && l.all Char.isDigit

/-- Python `int(...)` on a string of decimal digits. -/
def digitsToNat (l : List Char) : Nat :=
  l.foldl (fun n c => n * 10 + (c.toNat - 48)) 0

/-- Whitespace-separated words of a string, as in Python `str.split()`:
whitespace runs separate words, leading/trailing whitespace ignored. -/
def wordsL : List Char → List (List Char)
  | [] => []
  | c :: cs =>
    if isPyWs c then wordsL cs
    else
      match cs with
      | [] => [[c]]
      | c2 :: _ =>
        if isPyWs c2 then [c] :: wordsL cs
        else
          match wordsL cs with
          | w :: rest => (c :: w) :: rest
          | [] => [[c]]

/-- Join words with single spaces (Python `" ".join`). -/
def unwordsL : List (List Char) → List Char
  | [] => []
  | [w] => w
  | w :: x :: ws => w ++ ' ' :: unwordsL (x :: ws)

/-- `_clean` of title_builder.py: `re.sub(r"\s+", " ", s.strip())`, i.e.
collapse every whitespace run to one space and trim the ends.  This equals
splitting into whitespace-separated words and re-joining with single spaces. -/
def cleanL (l : List Char) : List Char :=
  unwordsL (wordsL l)

/-- `_join_tokens` of title_builder.py:
`_clean(" ".join([_clean(t) for t in tokens if _clean(t)]))`. -/
def join_tokens (toks : List (List Char)) : List Char :=
  cleanL (unwordsL ((toks.map cleanL).filter (fun t => decide (t ≠ []))))

/-! ## Python values -/

/-- JSON-like Python values: the value universe of a card record and of the
configuration objects. -/
inductive JVal where
  | null
  | bool (b : Bool)
  | num (n : Int)
  | str (s : String)
  | list (xs : List JVal)
  | dict (xs : List (String × JVal))

mutual
/-- Python `str(...)` coercion (string representation; for nested containers
the elements are rendered with `repr`-style quotes, escaping omitted). -/
def pyStr : JVal → String
  | .null => "None"
  | .bool true => "True"
  | .bool false => "False"
  | .num n => toString n
  | .str s => s
  | .list xs => "[" ++ pyReprList xs ++ "]"
  | .dict xs => "\x7b" ++ pyReprDict xs ++ "\x7d"

/-- Python `repr(...)` used for container elements. -/
def pyRepr : JVal → String
  | .null => "None"
  | .bool true => "True"
  | .bool false => "False"
  | .num n => toString n
  | .str s => "'" ++ s ++ "'"
  | .list xs => "[" ++ pyReprList xs ++ "]"
  | .dict xs => "\x7b" ++ pyReprDict xs ++ "\x7d"

/-- Comma-separated reprs of list elements. -/
def pyReprList : List JVal → String
  | [] => ""
  | [x] => pyRepr x
  | x :: y :: xs => pyRepr x ++ ", " ++ pyReprList (y :: xs)

/-- Comma-separated reprs of dict entries. -/
def pyReprDict : List (String × JVal) → String
  | [] => ""
  | [(k, v)] => "'" ++ k ++ "': " ++ pyRepr v
  | (k, v) :: e :: xs => "'" ++ k ++ "': " ++ pyRepr v ++ ", " ++ pyReprDict (e :: xs)
end

/-- Python truthiness of a value. -/
def truthy : JVal → Bool
  | .null => false
  | .bool b => b
  | .num n => decide (n ≠ 0)
  | .str s => decide (s ≠ "")
  | .list xs => !xs.isEmpty
  | .dict xs => !xs.isEmpty

/-- Python `a or b`: `a` if truthy, else `b`. -/
def jor (a b : JVal) : JVal :=
  if truthy a then a else b

/-! ## Python dicts (insertion-ordered association lists) -/

/-- A Python dict with string keys, in insertion order. -/
abbrev Dict := List (String × JVal)

/-- Dict lookup: `d[k]` / `d.get(k)` as an `Option`. -/
def dget (d : Dict) (k : String) : Option JVal :=
  match d with
  | [] => none
  | (k', v) :: rest => if k' = k then some v else dget rest k

/-- Python `d[k] = v`: update in place if the key exists, else append. -/
def dset (d : Dict) (k : String) (v : JVal) : Dict :=
  match d with
  | [] => [(k, v)]
  | (k', v') :: rest => if k' = k then (k', v) :: rest else (k', v') :: dset rest k v

/-- The keys of a dict. -/
def dkeys (d : Dict) : List String :=
  d.map Prod.fst

/-- Python `card.get(k)` (default `None`). -/
def cget (d : Dict) (k : String) : JVal :=
  (dget d k).getD .null

/-- Python `card.get(k, dflt)`. -/
def cgetD (d : Dict) (k : String) (dflt : JVal) : JVal :=
  (dget d k).getD dflt

/-- Python `card.get(k1, card.get(k2, dflt))`. -/
def getNested (d : Dict) (k1 k2 : String) (dflt : JVal) : JVal :=
  (dget d k1).getD ((dget d k2).getD dflt)

/-! ## Field normalizer (pipeline.py `norm_optional` = title_builder.py `_norm_optional`) -/

/-- The lowercased strings that normalize to blank. -/
def bannedLit : List String :=
  ["false", "no", "none", "n/a", "na"]

/-- `norm_optional` of pipeline.py (identical to `_norm_optional` of
title_builder.py): `None`/`False` and non-string values map to `""`;
strings are stripped, and map to `""` when empty or when the lowercased
form is one of `bannedLit`. -/
def norm_optional : JVal → String
  | .null => ""
  | .bool _ => ""
  | .str v =>
    let s := pyStrip v
    if s = "" then ""
    else if pyLower s ∈ bannedLit then ""
    else s
  | .num _ => ""
  | .list _ => ""
  | .dict _ => ""

/-- Modelled from the spec (section 4.1), for comparison with the source's
`norm_optional`: return `""` on null, boolean false, empty/whitespace-only
strings, strings whose lowercased trimmed form is one of
false/no/none/n-slash-a/na, and values of any other type; return the trimmed
string otherwise. -/
def normalizerSpec : JVal → String
  | .str v =>
    if pyStrip v = "" then ""
    else if pyLower (pyStrip v) ∈ bannedLit then ""
    else pyStrip v
  | _ => ""

/-! ## Serial parsing helpers -/

/-- Case-insensitive replacement of the whole word `of` by `/`
(`re.sub(r"\bof\b", "/", s, flags=re.IGNORECASE)`).  The first argument is
the character preceding the current position (for the left word boundary). -/
def subOfAux : Option Char → List Char → List Char
  | _, [] => []
  | _, [c] => [c]
  | prev, c :: f :: rest =>
    if (match prev with | none => true | some p => !isWordChar p)
        && (c = 'o' || c = 'O') && (f = 'f' || f = 'F')
        && (match rest with | [] => true | r :: _ => !isWordChar r) then
      '/' :: subOfAux (some f) rest
    else
      c :: subOfAux (some c) (f :: rest)

/-- `re.sub(r"\bof\b", "/", s, flags=re.IGNORECASE)` on a whole string. -/
def subOfL (l : List Char) : List Char :=
  subOfAux none l

/-- `re.search(r"(\d+)\s*/\s*(\d+)", s)`: leftmost full fraction; returns the
two greedy digit groups.  (The character classes `\d`, `\s`, `/` are mutually
disjoint, so greedy matching without backtracking is exact.) -/
def findFrac : List Char → Option (List Char × List Char)
  | [] => none
  | c :: cs =>
    if c.isDigit then
      let rest := (cs.dropWhile Char.isDigit).dropWhile isPyWs
      match rest with
      | '/' :: r3 =>
        (match r3.dropWhile isPyWs with
         | d :: ds =>
            if d.isDigit then some (c :: cs.takeWhile Char.isDigit, d :: ds.takeWhile Char.isDigit)
            else findFrac cs
         | [] => findFrac cs)
      | _ => findFrac cs
    else findFrac cs

/-- `re.search(r"/\s*(\d+)", s)`: leftmost slash followed by optional
whitespace and a greedy digit group. -/
def findSlashDenom : List Char → Option (List Char)
  | [] => none
  | c :: cs =>
    if c = '/' then
      match cs.dropWhile isPyWs with
      | d :: ds => if d.isDigit then some (d :: ds.takeWhile Char.isDigit) else findSlashDenom cs
      | [] => findSlashDenom cs
    else findSlashDenom cs

/-- Python `s.replace("of", "/")`: every occurrence, left to right. -/
def replaceOfL : List Char → List Char
  | 'o' :: 'f' :: rest => '/' :: replaceOfL rest
  | c :: rest => c :: replaceOfL rest
  | [] => []

/-- Python `s.split("/")` (single-character separator, empty parts kept). -/
def splitSlash : List Char → List (List Char)
  | [] => [[]]
  | c :: cs =>
    if c = '/' then [] :: splitSlash cs
    else
      match splitSlash cs with
      | p :: ps => (c :: p) :: ps
      | [] => [[c]]

/-- `_parse_serial_for_ebay` of title_builder.py: the title-mode serial
formatter.  Normalize; rewrite whole-word `of` to `/`; match a full fraction
`n/d` (keep the numerator iff `n = 1` or `n = d`, else denominator-only);
otherwise match a bare `/d`; non-positive denominators and non-matches give
`none`. -/
def parse_serial_for_ebay (serial_raw : JVal) : Option String :=
  let s := norm_optional serial_raw
  if s = "" then none
  else
    let l := subOfL s.data
    match findFrac l with
    | some (a, b) =>
      let first := digitsToNat a
      let denom := digitsToNat b
      if denom = 0 then none
      else if first = 1 ∨ first = denom then some (toString first ++ "/" ++ toString denom)
      else some ("/" ++ toString denom)
    | none =>
      match findSlashDenom l with
      | some b =>
        let denom := digitsToNat b
        if denom = 0 then none else some ("/" ++ toString denom)
      | none => none

/-- `serial_denominator_only_no_slash` of pipeline.py: normalize, lowercase,
replace every `of` by `/`; if a slash is present, take the part after the
last slash, strip it, and return its integer value if it is all digits;
otherwise return the integer value of the whole string if it is all digits;
else blank. -/
def serial_denominator_only_no_slash (serial : JVal) : String :=
  let s := norm_optional serial
  if s = "" then ""
  else
    let l := replaceOfL (s.data.map Char.toLower)
    if '/' ∈ l then
      let parts := splitSlash l
      let last := pyStripL (parts.getLastD [])
      if parts.length ≥ 2 ∧ pyIsDigit last then toString (digitsToNat last) else ""
    else
      if pyIsDigit l then toString (digitsToNat l) else ""

/-- `strip_hash` of pipeline.py: strip, then drop one leading `#` and strip
again. -/
def strip_hash (s : String) : String :=
  let t := pyStrip s
  match t.data with
  | '#' :: rest => pyStrip ⟨rest⟩
  | _ => t

/-- `get_player_name` of pipeline.py: first and last name joined by one space
and stripped.  (Python would raise on truthy non-string name fields; the
model totalizes them through `str()`.) -/
def get_player_name (card : Dict) : String :=
  let pf := pyStrip (pyStr (jor (jor (cget card "player_first") (cget card "player_first_name")) (.str "")))
  let pl := pyStrip (pyStr (jor (jor (cget card "player_last") (cget card "player_last_name")) (.str "")))
  pyStrip (pf ++ " " ++ pl)

/-! ## Title builder (title_builder.py) -/

/-- The eBay title budget. -/
def EBAY_TITLE_MAX : Nat := 80

/-- The six mandatory tokens of `build_ebay_title`, each `_clean(str(...))`. -/
def mandatoryTokens (card : Dict) : List (List Char) :=
  [ cleanL (pyStr (cgetD card "year" (.str ""))).data,
    cleanL (pyStr (cgetD card "brand" (.str ""))).data,
    cleanL (pyStr (getNested card "set" "set_name" (.str ""))).data,
    cleanL (pyStr (getNested card "player_first" "player_first_name" (.str ""))).data,
    cleanL (pyStr (getNested card "player_last" "player_last_name" (.str ""))).data,
    cleanL (pyStr (getNested card "card_number" "card_no" (.str ""))).data ]

/-- The value of one optional title group (`group_values` of
`build_ebay_title`): the normalized card field, passed through
`_join_tokens([...])`.  The serial group uses the title-mode serial formatter
(`x or ""` on its result; the formatter never returns an empty string). -/
def groupVal (card : Dict) (k : String) : List Char :=
  if k = "insert" then join_tokens [(norm_optional (getNested card "insert" "insert_set" .null)).data]
  else if k = "parallel" then join_tokens [(norm_optional (getNested card "parallel" "variety" .null)).data]
  else if k = "auto_patch" then join_tokens [(norm_optional (getNested card "auto_patch" "auto_patch_type" .null)).data]
  else if k = "serial" then join_tokens [((parse_serial_for_ebay (getNested card "serial" "serial_number" .null)).getD "").data]
  else if k = "grading_company" then join_tokens [(norm_optional (getNested card "grading_company" "grader" .null)).data]
  else if k = "numerical_grade" then join_tokens [(norm_optional (getNested card "numerical_grade" "grade" .null)).data]
  else if k = "team_city" then join_tokens [(norm_optional (cget card "team_city")).data]
  else if k = "team_name" then join_tokens [(norm_optional (getNested card "team_name" "team" .null)).data]
  else if k = "rookie" then join_tokens [(norm_optional (getNested card "rookie" "rc" .null)).data]
  else []

/-- The fixed inclusion order of the optional groups. -/
def includeOrder : List String :=
  ["insert", "parallel", "auto_patch", "serial", "grading_company",
   "numerical_grade", "team_city", "team_name", "rookie"]

/-- The fixed drop-priority order (lowest priority dropped first). -/
def dropPriority : List String :=
  ["team_city", "team_name", "numerical_grade", "grading_company",
   "parallel", "insert", "serial", "auto_patch", "rookie"]

/-- The `active` map of the drop loop: a group's value, blanked once the
group has been dropped. -/
def activeVal (card : Dict) (removed : List String) (k : String) : List Char :=
  if k ∈ removed then [] else groupVal card k

/-- Re-assembled title given the set of dropped groups: mandatory tokens
followed by the still-active optional groups in inclusion order. -/
def titleWith (card : Dict) (removed : List String) : List Char :=
  join_tokens (mandatoryTokens card ++
    (includeOrder.filter (fun k => decide (activeVal card removed k ≠ []))).map (activeVal card removed))

/-- The mandatory-token-only title. -/
def mandatoryTitle (card : Dict) : List Char :=
  join_tokens (mandatoryTokens card)

/-- The drop loop of `build_ebay_title`: walk the drop-priority list; stop as
soon as the title fits; otherwise drop the next present group, re-assemble
and re-measure. -/
def dropLoop (card : Dict) : List String → List Char → List String → (List Char × List String)
  | [], title, dropped => (title, dropped)
  | k :: rest, title, dropped =>
    if title.length ≤ EBAY_TITLE_MAX then (title, dropped)
    else if activeVal card dropped k ≠ [] then
      dropLoop card rest (titleWith card (dropped ++ [k])) (dropped ++ [k])
    else dropLoop card rest title dropped

/-- `build_ebay_title` of title_builder.py.  The `ValueError` raised when the
mandatory tokens alone exceed the budget is modelled as an `Except.error`
carrying the data interpolated into its message: the offending title and its
length. -/
def build_ebay_title (card : Dict) : Except (List Char × Nat) (List Char × List String) :=
  let title0 := titleWith card []
  let res := if title0.length > EBAY_TITLE_MAX then dropLoop card dropPriority title0 [] else (title0, [])
  if res.1.length > EBAY_TITLE_MAX then .error (res.1, res.1.length) else .ok (res.1, res.2)

/-! ## Item-specifics derivation (pipeline.py `build_item_specifics`) -/

/-- The `direct_map` of step 2 of `build_item_specifics`, in source order. -/
def directMap (card : Dict) : List (String × JVal) :=
  [ ("Player/Athlete", jor (jor (cget card "player_athlete") (cget card "Player/Athlete")) (.str (get_player_name card))),
    ("Manufacturer", jor (cget card "Manufacturer") (cget card "brand")),
    ("Set", jor (jor (cget card "Set") (cget card "set")) (cget card "set_name")),
    ("Team", jor (jor (cget card "Team") (cget card "team_name")) (cget card "team")),
    ("Season", jor (cget card "Season") (cget card "year")),
    ("Year Manufactured", jor (cget card "Year Manufactured") (cget card "year")),
    ("Parallel/Variety", jor (cget card "Parallel/Variety") (cget card "parallel")),
    ("Features", cget card "Features"),
    ("Insert Set", jor (jor (cget card "Insert Set") (cget card "insert_set")) (cget card "insert")),
    ("Autographed", jor (cget card "Autographed") (cget card "autographed")),
    ("Professional Grader", jor (jor (cget card "Professional Grader") (cget card "grading_company")) (cget card "grader")),
    ("Grade", jor (jor (cget card "Grade") (cget card "grade")) (cget card "numerical_grade")),
    ("Card Thickness", cget card "Card Thickness"),
    ("Event/Tournament", cget card "Event/Tournament"),
    ("League", cget card "League"),
    ("Card Name", cget card "Card Name"),
    ("Card Number", jor (cget card "Card Number") (cget card "card_number")),
    ("Print Run", cget card "Print Run"),
    ("Signed By", cget card "Signed By"),
    ("Autograph Authentication", cget card "Autograph Authentication"),
    ("Autograph Authentication Number", cget card "Autograph Authentication Number"),
    ("Autograph Format", cget card "Autograph Format"),
    ("California Prop 65 Warning", cget card "California Prop 65 Warning"),
    ("Sport", jor (cget card "Sport") (cget card "sport")),
    ("Type", cget card "Type") ]

/-- One write of the direct-mapping layer: "Features" keeps a nonempty list
(elements stringified, stripped, empties filtered) or a nonempty stripped
string; every other aspect goes through the normalizer and is written only
if the result is nonempty. -/
def applyDirect (item : Dict) (e : String × JVal) : Dict :=
  if e.1 = "Features" then
    match e.2 with
    | .list xs =>
      if xs.isEmpty then item
      else
        dset item "Features" (.list (((xs.map (fun x => pyStrip (pyStr x))).filter (fun s => decide (s ≠ ""))).map JVal.str))
    | .str s => if pyStrip s ≠ "" then dset item "Features" (.str (pyStrip s)) else item
    | _ => item
  else
    let s := norm_optional e.2
    if s ≠ "" then dset item e.1 (.str s) else item

/-- Step 1: global defaults injected unconditionally. -/
def step1 (globals : Dict) : Dict :=
  globals.foldl (fun item kv => dset item kv.1 kv.2) []

/-- Step 2: the direct-mapping layer. -/
def step2 (card : Dict) (item : Dict) : Dict :=
  (directMap card).foldl applyDirect item

/-- The four known source extractors of a derive/enforce rule. -/
def srcVal (card : Dict) (rule : List (String × JVal)) : String :=
  match dget rule "from" with
  | some (.str s) =>
    if s = "player_name" then get_player_name card
    else if s = "card_number" then pyStrip (pyStr (cgetD card "card_number" (.str "")))
    else if s = "serial_number" then pyStrip (pyStr (cgetD card "serial_number" (.str "")))
    else if s = "year" then pyStrip (pyStr (cgetD card "year" (.str "")))
    else ""
  | _ => ""

/-- The optional named transform of a derive/enforce rule. -/
def xformVal (rule : List (String × JVal)) (v : String) : String :=
  match dget rule "transform" with
  | some (.str s) =>
    if s = "strip_hash" then strip_hash v
    else if s = "serial_denominator_only_no_slash" then serial_denominator_only_no_slash (.str v)
    else v
  | _ => v

/-- One derive/enforce rule application; non-dict rules are skipped. -/
def applyRule (card : Dict) (item : Dict) (tr : String × JVal) : Dict :=
  match tr.2 with
  | .dict rule =>
    let v := xformVal rule (srcVal card rule)
    if v ≠ "" then dset item tr.1 (.str v) else item
  | _ => item

/-- Step 3: the derive/enforce layer. -/
def step3 (card enforced : Dict) (item : Dict) : Dict :=
  match (dget enforced "derive_and_enforce").getD (.dict []) with
  | .dict dae => dae.foldl (applyRule card) item
  | _ => item

/-- The current Sport, read before the conditional layer:
`(item.get("Sport") or "").strip()`. -/
def sportOf (item : Dict) : String :=
  pyStrip (pyStr (jor (cget item "Sport") (.str "")))

/-- First rule in a conditional rule list whose `when.Sport` equals the
current sport (Python would raise on non-dict rule entries; the model skips
them). -/
def firstSportRule (rules : List JVal) (sport : String) : Option (List (String × JVal)) :=
  match rules with
  | [] => none
  | .dict rd :: rest =>
    (match (dget rd "when").getD (.dict []) with
     | .dict w =>
       (match dget w "Sport" with
        | some (.str t) => if t = sport then some rd else firstSportRule rest sport
        | _ => firstSportRule rest sport)
     | _ => firstSportRule rest sport)
  | _ :: rest => firstSportRule rest sport

/-- Apply the League / Event-Tournament conditional mapping for one target
field: set the field to the first matching rule's normalized value (if
nonempty), stopping at the first match. -/
def applySportRules (item : Dict) (k : String) (caEntry : JVal) (sport : String) : Dict :=
  match caEntry with
  | .dict kd =>
    (match (dget kd "rules").getD (.list []) with
     | .list rules =>
       (match firstSportRule rules sport with
        | some rd =>
          let v := norm_optional ((dget rd "value").getD .null)
          if v ≠ "" then dset item k (.str v) else item
        | none => item)
     | _ => item)
  | _ => item

/-- Whether the first list starts the second (used for Python substring
containment). -/
def leadMatch : List Char → List Char → Bool
  | [], _ => true
  | _ :: _, [] => false
  | a :: as, b :: bs => a = b && leadMatch as bs

/-- Python `needle in hay` for strings: substring containment. -/
def hasSub (needle : List Char) : List Char → Bool
  | [] => needle.isEmpty
  | c :: t => leadMatch needle (c :: t) || hasSub needle t

/-- The serialized Features text inspected by the memorabilia override:
`" ".join(feats)` for a list, `str(feats)` otherwise.  (Python `join`
requires string elements; the model totalizes them through `str()`.) -/
def featsText : JVal → String
  | .list xs => String.intercalate " " (xs.map pyStr)
  | v => pyStr v

/-- The Prop-65 explicit blank of the conditional layer. -/
def prop65Step (ca : List (String × JVal)) (item : Dict) : Dict :=
  if (dget ca "California Prop 65 Warning").isSome
  then dset item "California Prop 65 Warning" (.str "") else item

/-- The Sport-conditional mapping of the conditional layer for one target
field (League or Event/Tournament), applied when the target is configured
and the current sport is nonempty. -/
def sportStep (ca : List (String × JVal)) (k : String) (sport : String) (item : Dict) : Dict :=
  match dget ca k with
  | some e => if sport ≠ "" then applySportRules item k e sport else item
  | none => item

/-- The Card Thickness block of the conditional layer: configured default if
currently empty, then the unconditional memorabilia override. -/
def thickStep (ct : List (String × JVal)) (item : Dict) : Dict :=
  let item4 :=
    if norm_optional (cget item "Card Thickness") = "" then
      let dflt := norm_optional ((dget ct "default").getD .null)
      if dflt ≠ "" then dset item "Card Thickness" (.str dflt) else item
    else item
  let feats := cgetD item4 "Features" (.list [])
  if hasSub "Memorabilia".data (featsText feats).data then dset item4 "Card Thickness" (.str "") else item4

/-- Step 4: conditional aspects: Prop-65 explicit blank; Sport-conditional
League and Event/Tournament; Card Thickness default-unless-Memorabilia.
The sport is read once, before the conditional writes, as in the source. -/
def step4 (enforced : Dict) (item : Dict) : Dict :=
  match (dget enforced "conditional_aspects").getD (.dict []) with
  | .dict ca =>
    let sport := sportOf item
    let item3 := sportStep ca "Event/Tournament" sport (sportStep ca "League" sport (prop65Step ca item))
    match dget ca "Card Thickness" with
    | some (.dict ct) => thickStep ct item3
    | _ => item3
  | _ => item

/-- Python `x in container` for a string `x` (list membership, substring of a
string, key of a dict). -/
def pyInJ (s : String) (container : JVal) : Bool :=
  match container with
  | .list xs => xs.any (fun j => match j with | .str t => decide (t = s) | _ => false)
  | .str t => hasSub s.data t.data
  | .dict xs => xs.any (fun p => decide (p.1 = s))
  | _ => false

/-- Step 5: the autograph-dependency layer (`when_no` copied verbatim when
the normalized Autographed value lowercases to "no"; `when_yes` writes
Signed By / Autograph Authentication / blank auth number / format policy
when it lowercases to "yes"). -/
def step5 (card enforced : Dict) (item : Dict) : Dict :=
  match (dget enforced "autograph_rules").getD (.dict []) with
  | .dict ar =>
    (match dget ar "Autographed" with
     | some (.dict blk) =>
       let auto := norm_optional (cget item "Autographed")
       if pyLower auto = "no" then
         match (dget blk "when_no").getD (.dict []) with
         | .dict wn => wn.foldl (fun it kv => dset it kv.1 kv.2) item
         | _ => item
       else if pyLower auto = "yes" then
         match (dget blk "when_yes").getD (.dict []) with
         | .dict wy =>
           let it1 :=
             match dget wy "Signed By" with
             | some (.dict sb) =>
               if (match dget sb "from" with | some (.str f) => decide (f = "player_name") | _ => false)
               then dset item "Signed By" (.str (get_player_name card)) else item
             | _ => item
           let it2 :=
             match dget wy "Autograph Authentication" with
             | some (.dict aa) =>
               (match dget aa "value" with
                | some v => dset it1 "Autograph Authentication" v
                | none => it1)
             | _ => it1
           let it3 := dset it2 "Autograph Authentication Number" (.str "")
           match dget wy "Autograph Format" with
           | some (.dict af) =>
             let allowed := (dget af "allowed_by_policy").getD (.list [])
             let current := norm_optional (cget it3 "Autograph Format")
             if current ≠ "" ∧ truthy allowed ∧ ¬ pyInJ current allowed
             then dset it3 "Autograph Format" (.str "") else it3
           | _ => it3
         | _ => item
       else item
     | _ => item)
  | _ => item

/-- Step 6: Parallel/Variety fallback default. -/
def step6 (enforced : Dict) (item : Dict) : Dict :=
  match (dget enforced "parallel_variety_rules").getD (.dict []) with
  | .dict pvr =>
    if norm_optional (cget item "Parallel/Variety") = ""
    then dset item "Parallel/Variety" ((dget pvr "default").getD (.str "[Base]"))
    else item
  | _ => item

/-- Step 7: Features fallback default when the Features value is falsy. -/
def step7 (enforced : Dict) (item : Dict) : Dict :=
  match (dget enforced "features_rules").getD (.dict []) with
  | .dict fr =>
    if truthy (cget item "Features") then item
    else dset item "Features" ((dget fr "default_if_none_detected").getD (.list [.str "Base Set"]))
  | _ => item

/-- Step 8: Print Run forced to the derived bare denominator when present. -/
def step8 (card : Dict) (item : Dict) : Dict :=
  let denom := serial_denominator_only_no_slash (cget card "serial_number")
  if denom ≠ "" then dset item "Print Run" (.str denom) else item

/-- Step 9: Insert Set passthrough. -/
def step9 (card : Dict) (item : Dict) : Dict :=
  let ins := norm_optional (jor (cget card "insert_set") (cget card "insert"))
  if ins ≠ "" then dset item "Insert Set" (.str ins) else item

/-- `build_item_specifics` of pipeline.py: the layered derivation pipeline. -/
def build_item_specifics (card globals enforced : Dict) : Dict :=
  step9 card (step8 card (step7 enforced (step6 enforced (step5 card enforced
    (step4 enforced (step3 card enforced (step2 card (step1 globals))))))))

/-! ## Concrete inputs used to instantiate the theorems -/

/-- A card marked not autographed, with a source Signed By value. -/
def cardAutoNo : Dict :=
  [("Autographed", .str "No"), ("Signed By", .str "John Hancock")]

/-- An enforced-requirements configuration whose autograph rules blank
"Signed By" when the card is not autographed. -/
def enfAutoNo : Dict :=
  [("autograph_rules", .dict [("Autographed", .dict [("when_no", .dict [("Signed By", .str "")])])])]

/-- A card whose year field alone exceeds the 80-character title budget. -/
def cardOverflow : Dict :=
  [("year", .str "Lorem ipsum dolor sit amet consectetur adipiscing elit sed do eiusmod tempor incididunt ut labore")]

/-- A card whose only optional group is a team city long enough to push the
title over budget. -/
def cardDropCity : Dict :=
  [("year", .str "2023"), ("brand", .str "Topps"), ("set", .str "Chrome"),
   ("player_first", .str "Jane"), ("player_last", .str "Doe"), ("card_number", .str "15"),
   ("team_city", .str "Llanfairpwllgwyngyllgogerychwyrndrobwllllantysiliogogogochshire")]

/-- A short card that fits in the budget with a serial group. -/
def cardFits : Dict :=
  [("year", .str "2023"), ("brand", .str "Topps"), ("set", .str "Chrome"),
   ("player_first", .str "Jane"), ("player_last", .str "Doe"), ("card_number", .str "15"),
   ("serial_number", .str "1/99")]

/-- A card with a serial number and a manually supplied Print Run. -/
def cardSerialPR : Dict :=
  [("serial_number", .str "12/99"), ("Print Run", .str "50")]

/-- A card whose serial field uses the textual `of` separator without a
numerator. -/
def cardOfTen : Dict :=
  [("serial", .str "of 10")]

/-- A global-defaults mapping carrying a literal "no" value. -/
def globalsRawNo : Dict :=
  [("Foo", .str "no")]

/-- A card whose source brand needs trimming. -/
def cardBrandPad : Dict :=
  [("brand", .str " Topps ")]

/-- A card with a memorabilia feature and a typed card thickness. -/
def cardMemo : Dict :=
  [("Features", .list [.str "Memorabilia Patch"]), ("Card Thickness", .str "55 Pt.")]

/-- An enforced-requirements configuration with a Card Thickness default. -/
def enfThick : Dict :=
  [("conditional_aspects", .dict [("Card Thickness", .dict [("default", .str "20 Pt.")])])]

/-- A global-defaults mapping with one key. -/
def globalsCond : Dict :=
  [("Condition", .str "Ungraded")]

/-! ## Facts about the string primitives -/

theorem trailStripL_cons (c : Char) (cs : List Char) :
    trailStripL (c :: cs) =
      match trailStripL cs with
      | [] => if isPyWs c then [] else [c]
      | d :: r => c :: d :: r := rfl

theorem dropWhile_ws_idem (l : List Char) :
    (l.dropWhile isPyWs).dropWhile isPyWs = l.dropWhile isPyWs := by
  induction l with
  | nil => rfl
  | cons c cs ih =>
    cases hc : isPyWs c
    · simp [List.dropWhile_cons, hc]
    · simp [List.dropWhile_cons, hc, ih]

theorem trailStripL_idem (l : List Char) : trailStripL (trailStripL l) = trailStripL l := by
  induction l with
  | nil => rfl
  | cons c cs ih =>
    rw [trailStripL_cons]
    cases h : trailStripL cs with
    | nil =>
      cases hc : isPyWs c
      · simp [trailStripL, hc]
      · simp [trailStripL, hc]
    | cons d r =>
      rw [h] at ih
      rw [trailStripL_cons, ih]

theorem dropWhile_trailStripL_comm (l : List Char) :
    (trailStripL l).dropWhile isPyWs = trailStripL (l.dropWhile isPyWs) := by
  induction l with
  | nil => rfl
  | cons c cs ih =>
    cases hc : isPyWs c
    · have hdrop : (c :: cs).dropWhile isPyWs = c :: cs := by
        simp [List.dropWhile_cons, hc]
      rw [trailStripL_cons, hdrop, trailStripL_cons]
      cases h : trailStripL cs with
      | nil => simp [List.dropWhile_cons, hc]
      | cons d r => simp [List.dropWhile_cons, hc]
    · have hdrop : (c :: cs).dropWhile isPyWs = cs.dropWhile isPyWs := by
        simp [List.dropWhile_cons, hc]
      rw [trailStripL_cons, hdrop]
      cases h : trailStripL cs with
      | nil =>
        have hnil : trailStripL (cs.dropWhile isPyWs) = [] := by
          rw [← ih, h]
          rfl
        simp [hc, hnil]
      | cons d r =>
        have hstep : ((c :: d :: r).dropWhile isPyWs) = (d :: r).dropWhile isPyWs := by
          simp [List.dropWhile_cons, hc]
        rw [hstep, ← ih, h]

theorem pyStripL_idem (l : List Char) : pyStripL (pyStripL l) = pyStripL l := by
  unfold pyStripL
  calc trailStripL ((trailStripL (l.dropWhile isPyWs)).dropWhile isPyWs)
      = trailStripL (trailStripL ((l.dropWhile isPyWs).dropWhile isPyWs)) := by
        rw [dropWhile_trailStripL_comm]
    _ = trailStripL (trailStripL (l.dropWhile isPyWs)) := by rw [dropWhile_ws_idem]
    _ = trailStripL (l.dropWhile isPyWs) := trailStripL_idem _

theorem pyStrip_idem (s : String) : pyStrip (pyStrip s) = pyStrip s :=
  congrArg String.mk (pyStripL_idem s.data)

/-! ## Facts about the normalizer -/

theorem norm_optional_str (s : String) :
    norm_optional (.str s) =
      if pyStrip s = "" then ""
      else if pyLower (pyStrip s) ∈ bannedLit then ""
      else pyStrip s := rfl

theorem norm_optional_ne_empty_clean (v : JVal) (h : norm_optional v ≠ "") :
    norm_optional v ≠ "" ∧ pyLower (pyStrip (norm_optional v)) ∉ bannedLit := by
  refine ⟨h, ?_⟩
  cases v with
  | str s =>
    by_cases h1 : pyStrip s = ""
    · rw [norm_optional_str, if_pos h1] at h
      exact absurd rfl h
    · by_cases h2 : pyLower (pyStrip s) ∈ bannedLit
      · rw [norm_optional_str, if_neg h1, if_pos h2] at h
        exact absurd rfl h
      · rw [norm_optional_str, if_neg h1, if_neg h2, pyStrip_idem]
        exact h2
  | null => exact absurd rfl h
  | bool b => exact absurd rfl h
  | num n => exact absurd rfl h
  | list xs => exact absurd rfl h
  | dict xs => exact absurd rfl h

theorem pyLower_norm_optional_ne_no (v : JVal) :
    pyLower (norm_optional v) ≠ "no" := by
  cases v with
  | str s =>
    by_cases h1 : pyStrip s = ""
    · rw [norm_optional_str, if_pos h1]
      decide
    · by_cases h2 : pyLower (pyStrip s) ∈ bannedLit
      · rw [norm_optional_str, if_neg h1, if_pos h2]
        decide
      · rw [norm_optional_str, if_neg h1, if_neg h2]
        intro hno
        exact h2 (by rw [hno]; decide)
  | null => decide
  | bool b => cases b <;> decide
  | num n => simp [norm_optional]; decide
  | list xs => simp [norm_optional]; decide
  | dict xs => simp [norm_optional]; decide

/-! ## Facts about dicts -/

theorem dget_dset_self (d : Dict) (k : String) (v : JVal) :
    dget (dset d k v) k = some v := by
  induction d with
  | nil => simp [dset, dget]
  | cons e rest ih =>
    obtain ⟨k', v'⟩ := e
    by_cases h : k' = k
    · simp [dset, dget, h]
    · simp [dset, dget, h, ih]

theorem dget_dset_ne (d : Dict) (k : String) (v : JVal) (k' : String) (h : k ≠ k') :
    dget (dset d k v) k' = dget d k' := by
  induction d with
  | nil => simp [dset, dget, h]
  | cons e rest ih =>
    obtain ⟨k0, v0⟩ := e
    by_cases h0 : k0 = k
    · subst h0
      simp [dset, dget, h]
    · simp [dset, dget, h0, ih]

theorem mem_dkeys_dset (d : Dict) (k k' : String) (v : JVal) (h : k' ∈ dkeys d) :
    k' ∈ dkeys (dset d k v) := by
  induction d with
  | nil => simp [dkeys] at h
  | cons e rest ih =>
    obtain ⟨k0, v0⟩ := e
    by_cases h0 : k0 = k
    · simpa [dset, dkeys, h0] using h
    · simp [dkeys] at h
      rcases h with h | h
      · simp [dset, dkeys, h0, h]
      · simp [dset, dkeys, h0]
        exact Or.inr (by simpa [dkeys] using ih (by simpa [dkeys] using h))

theorem self_mem_dkeys_dset (d : Dict) (k : String) (v : JVal) :
    k ∈ dkeys (dset d k v) := by
  induction d with
  | nil => simp [dset, dkeys]
  | cons e rest ih =>
    obtain ⟨k0, v0⟩ := e
    by_cases h0 : k0 = k
    · simp [dset, dkeys, h0]
    · simp [dset, dkeys, h0]
      exact Or.inr (by simpa [dkeys] using ih)

theorem foldl_keys_mono {α : Type} (f : Dict → α → Dict)
    (hf : ∀ d a k, k ∈ dkeys d → k ∈ dkeys (f d a)) :
    ∀ (l : List α) (d : Dict) (k : String), k ∈ dkeys d → k ∈ dkeys (l.foldl f d) := by
  intro l
  induction l with
  | nil => intro d k h; simpa using h
  | cons a rest ih => intro d k h; exact ih (f d a) k (hf d a k h)

theorem foldl_dset_keys (l : List (String × JVal)) :
    ∀ (acc : Dict) (k : String), k ∈ dkeys acc ∨ k ∈ dkeys l →
      k ∈ dkeys (l.foldl (fun item kv => dset item kv.1 kv.2) acc) := by
  induction l with
  | nil =>
    intro acc k h
    rcases h with h | h
    · simpa using h
    · simp [dkeys] at h
  | cons e rest ih =>
    intro acc k h
    apply ih
    rcases h with h | h
    · exact Or.inl (mem_dkeys_dset _ _ _ _ h)
    · simp [dkeys] at h
      rcases h with h | h
      · refine Or.inl ?_
        rw [h]
        exact self_mem_dkeys_dset _ _ _
      · exact Or.inr (by simpa [dkeys] using h)

/-! ## Key monotonicity of the item-specifics layers -/

theorem applyDirect_keys (item : Dict) (e : String × JVal) (k : String) (h : k ∈ dkeys item) :
    k ∈ dkeys (applyDirect item e) := by
  simp only [applyDirect]
  repeat' split
  all_goals first | exact h | exact mem_dkeys_dset _ _ _ _ h

theorem applyRule_keys (card : Dict) (item : Dict) (tr : String × JVal) (k : String)
    (h : k ∈ dkeys item) : k ∈ dkeys (applyRule card item tr) := by
  simp only [applyRule]
  repeat' split
  all_goals first | exact h | exact mem_dkeys_dset _ _ _ _ h

theorem applySportRules_keys (item : Dict) (k0 : String) (e : JVal) (sport : String)
    (k : String) (h : k ∈ dkeys item) : k ∈ dkeys (applySportRules item k0 e sport) := by
  simp only [applySportRules]
  repeat' split
  all_goals first | exact h | exact mem_dkeys_dset _ _ _ _ h

theorem step2_keys (card item : Dict) (k : String) (h : k ∈ dkeys item) :
    k ∈ dkeys (step2 card item) := by
  unfold step2
  exact foldl_keys_mono _ (fun d a k hk => applyDirect_keys d a k hk) _ _ _ h

theorem step3_keys (card enforced item : Dict) (k : String) (h : k ∈ dkeys item) :
    k ∈ dkeys (step3 card enforced item) := by
  unfold step3
  split
  · exact foldl_keys_mono _ (fun d a k hk => applyRule_keys card d a k hk) _ _ _ h
  · exact h

theorem prop65Step_keys (ca : List (String × JVal)) (item : Dict) (k : String)
    (h : k ∈ dkeys item) : k ∈ dkeys (prop65Step ca item) := by
  simp only [prop65Step]
  split
  · exact mem_dkeys_dset _ _ _ _ h
  · exact h

theorem sportStep_keys (ca : List (String × JVal)) (k0 sport : String) (item : Dict)
    (k : String) (h : k ∈ dkeys item) : k ∈ dkeys (sportStep ca k0 sport item) := by
  simp only [sportStep]
  repeat' split
  all_goals first | exact h | exact applySportRules_keys _ _ _ _ _ h

theorem thickStep_keys (ct : List (String × JVal)) (item : Dict) (k : String)
    (h : k ∈ dkeys item) : k ∈ dkeys (thickStep ct item) := by
  simp only [thickStep]
  repeat' split
  all_goals
    repeat first
      | exact h
      | apply mem_dkeys_dset

theorem step4_keys (enforced item : Dict) (k : String) (h : k ∈ dkeys item) :
    k ∈ dkeys (step4 enforced item) := by
  simp only [step4]
  repeat' split
  all_goals
    first
      | exact h
      | exact thickStep_keys _ _ _ (sportStep_keys _ _ _ _ _ (sportStep_keys _ _ _ _ _ (prop65Step_keys _ _ _ h)))
      | exact sportStep_keys _ _ _ _ _ (sportStep_keys _ _ _ _ _ (prop65Step_keys _ _ _ h))

theorem step5_keys (card enforced item : Dict) (k : String) (h : k ∈ dkeys item) :
    k ∈ dkeys (step5 card enforced item) := by
  simp only [step5]
  repeat' split
  all_goals
    repeat first
      | exact h
      | exact foldl_dset_keys _ _ _ (Or.inl h)
      | apply mem_dkeys_dset

theorem step6_keys (enforced item : Dict) (k : String) (h : k ∈ dkeys item) :
    k ∈ dkeys (step6 enforced item) := by
  unfold step6
  repeat' split
  all_goals first | exact h | exact mem_dkeys_dset _ _ _ _ h

theorem step7_keys (enforced item : Dict) (k : String) (h : k ∈ dkeys item) :
    k ∈ dkeys (step7 enforced item) := by
  unfold step7
  repeat' split
  all_goals first | exact h | exact mem_dkeys_dset _ _ _ _ h

theorem step8_keys (card item : Dict) (k : String) (h : k ∈ dkeys item) :
    k ∈ dkeys (step8 card item) := by
  simp only [step8]
  repeat' split
  all_goals first | exact h | exact mem_dkeys_dset _ _ _ _ h

theorem step9_keys (card item : Dict) (k : String) (h : k ∈ dkeys item) :
    k ∈ dkeys (step9 card item) := by
  simp only [step9]
  repeat' split
  all_goals first | exact h | exact mem_dkeys_dset _ _ _ _ h

/-! ## Value preservation across the item-specifics layers -/

theorem dget_applySportRules_ne (item : Dict) (k0 : String) (e : JVal) (sport : String)
    (k : String) (h : k0 ≠ k) :
    dget (applySportRules item k0 e sport) k = dget item k := by
  simp only [applySportRules]
  repeat' split
  all_goals first | rfl | exact dget_dset_ne _ _ _ _ h

theorem dget_prop65Step_ne (ca : List (String × JVal)) (item : Dict) (k : String)
    (h : k ≠ "California Prop 65 Warning") :
    dget (prop65Step ca item) k = dget item k := by
  simp only [prop65Step]
  split
  · exact dget_dset_ne _ _ _ _ (Ne.symm h)
  · rfl

theorem dget_sportStep_ne (ca : List (String × JVal)) (k0 sport : String) (item : Dict)
    (k : String) (h : k0 ≠ k) :
    dget (sportStep ca k0 sport item) k = dget item k := by
  simp only [sportStep]
  repeat' split
  all_goals first | rfl | exact dget_applySportRules_ne _ _ _ _ _ h

theorem thickStep_memorabilia (ct : List (String × JVal)) (item : Dict)
    (hmem : hasSub "Memorabilia".data (featsText (cgetD item "Features" (.list []))).data = true) :
    dget (thickStep ct item) "Card Thickness" = some (JVal.str "") := by
  simp only [thickStep]
  by_cases h1 : norm_optional (cget item "Card Thickness") = ""
  · rw [if_pos h1]
    by_cases h2 : norm_optional ((dget ct "default").getD JVal.null) ≠ ""
    · rw [if_pos h2]
      have hF : cgetD (dset item "Card Thickness" (JVal.str (norm_optional ((dget ct "default").getD JVal.null)))) "Features" (JVal.list []) = cgetD item "Features" (JVal.list []) := by
        unfold cgetD
        rw [dget_dset_ne _ _ _ _ (by decide)]
      rw [hF, if_pos hmem]
      exact dget_dset_self _ _ _
    · rw [if_neg h2, if_pos hmem]
      exact dget_dset_self _ _ _
  · rw [if_neg h1, if_pos hmem]
    exact dget_dset_self _ _ _

theorem step4_thickness (enforced item : Dict) (ca ct : List (String × JVal))
    (hca : (dget enforced "conditional_aspects").getD (.dict []) = .dict ca)
    (hct : dget ca "Card Thickness" = some (.dict ct))
    (hmem : hasSub "Memorabilia".data (featsText (cgetD item "Features" (.list []))).data = true) :
    dget (step4 enforced item) "Card Thickness" = some (JVal.str "") := by
  simp only [step4]
  rw [hca]
  dsimp only
  rw [hct]
  dsimp only
  have hF : dget (sportStep ca "Event/Tournament" (sportOf item) (sportStep ca "League" (sportOf item) (prop65Step ca item))) "Features" = dget item "Features" := by
    rw [dget_sportStep_ne _ _ _ _ _ (by decide), dget_sportStep_ne _ _ _ _ _ (by decide),
      dget_prop65Step_ne _ _ _ (by decide)]
  apply thickStep_memorabilia
  unfold cgetD at hmem ⊢
  rw [hF]
  exact hmem

theorem dget_step5_ne (card enforced item : Dict) (k : String)
    (h1 : k ≠ "Signed By") (h2 : k ≠ "Autograph Authentication")
    (h3 : k ≠ "Autograph Authentication Number") (h4 : k ≠ "Autograph Format") :
    dget (step5 card enforced item) k = dget item k := by
  simp only [step5]
  repeat' split
  all_goals
    first
      | rfl
      | exact (pyLower_norm_optional_ne_no _ (by assumption)).elim
      | simp only [dget_dset_ne _ _ _ _ (Ne.symm h1), dget_dset_ne _ _ _ _ (Ne.symm h2),
          dget_dset_ne _ _ _ _ (Ne.symm h3), dget_dset_ne _ _ _ _ (Ne.symm h4)]

theorem dget_step6_ne (enforced item : Dict) (k : String) (h : k ≠ "Parallel/Variety") :
    dget (step6 enforced item) k = dget item k := by
  simp only [step6]
  repeat' split
  all_goals first | rfl | exact dget_dset_ne _ _ _ _ (Ne.symm h)

theorem dget_step7_ne (enforced item : Dict) (k : String) (h : k ≠ "Features") :
    dget (step7 enforced item) k = dget item k := by
  simp only [step7]
  repeat' split
  all_goals first | rfl | exact dget_dset_ne _ _ _ _ (Ne.symm h)

theorem dget_step8_ne (card item : Dict) (k : String) (h : k ≠ "Print Run") :
    dget (step8 card item) k = dget item k := by
  simp only [step8]
  split
  · exact dget_dset_ne _ _ _ _ (Ne.symm h)
  · rfl

theorem dget_step9_ne (card item : Dict) (k : String) (h : k ≠ "Insert Set") :
    dget (step9 card item) k = dget item k := by
  simp only [step9]
  split
  · exact dget_dset_ne _ _ _ _ (Ne.symm h)
  · rfl

theorem dget_step8_set (card item : Dict)
    (h : serial_denominator_only_no_slash (cget card "serial_number") ≠ "") :
    dget (step8 card item) "Print Run" =
      some (JVal.str (serial_denominator_only_no_slash (cget card "serial_number"))) := by
  simp only [step8]
  rw [if_pos h]
  exact dget_dset_self _ _ _

/-! ## Facts about words, joins and cleaned tokens -/

theorem wordsL_cons_ws (c : Char) (cs : List Char) (hc : isPyWs c = true) :
    wordsL (c :: cs) = wordsL cs := by
  simp [wordsL, hc]

theorem wordsL_cons_single (c : Char) (hc : isPyWs c = false) :
    wordsL [c] = [[c]] := by
  simp [wordsL, hc]

theorem wordsL_cons_break (c c2 : Char) (cs : List Char) (hc : isPyWs c = false)
    (hc2 : isPyWs c2 = true) :
    wordsL (c :: c2 :: cs) = [c] :: wordsL (c2 :: cs) := by
  simp [wordsL, hc, hc2]

theorem wordsL_cons_glue (c c2 : Char) (cs : List Char) (hc : isPyWs c = false)
    (hc2 : isPyWs c2 = false) :
    wordsL (c :: c2 :: cs) =
      match wordsL (c2 :: cs) with
      | w :: rest => (c :: w) :: rest
      | [] => [[c]] := by
  simp [wordsL, hc, hc2]

theorem wordsL_cons_ne_nil (c : Char) (cs : List Char) (hc : isPyWs c = false) :
    wordsL (c :: cs) ≠ [] := by
  cases cs with
  | nil => rw [wordsL_cons_single c hc]; simp
  | cons c2 cs2 =>
    cases hc2 : isPyWs c2 with
    | true => rw [wordsL_cons_break c c2 cs2 hc hc2]; simp
    | false =>
      rw [wordsL_cons_glue c c2 cs2 hc hc2]
      cases h : wordsL (c2 :: cs2) <;> simp

theorem wordsL_sound (l : List Char) :
    ∀ w ∈ wordsL l, w ≠ [] ∧ ∀ c ∈ w, isPyWs c = false := by
  induction l with
  | nil => simp [wordsL]
  | cons c cs ih =>
    cases hc : isPyWs c with
    | true => rw [wordsL_cons_ws c cs hc]; exact ih
    | false =>
      cases cs with
      | nil =>
        rw [wordsL_cons_single c hc]
        intro w hw
        simp only [List.mem_singleton] at hw
        subst hw
        refine ⟨by simp, ?_⟩
        intro x hx
        simp only [List.mem_singleton] at hx
        subst hx
        exact hc
      | cons c2 cs2 =>
        cases hc2 : isPyWs c2 with
        | true =>
          rw [wordsL_cons_break c c2 cs2 hc hc2]
          intro w hw
          rcases List.mem_cons.mp hw with h | h
          · subst h
            refine ⟨by simp, ?_⟩
            intro x hx
            simp only [List.mem_singleton] at hx
            subst hx
            exact hc
          · exact ih w h
        | false =>
          rw [wordsL_cons_glue c c2 cs2 hc hc2]
          cases h2 : wordsL (c2 :: cs2) with
          | nil => exact absurd h2 (wordsL_cons_ne_nil c2 cs2 hc2)
          | cons w0 rest =>
            intro w hw
            simp only at hw
            rcases List.mem_cons.mp hw with h | h
            · subst h
              have hw0 := ih w0 (by rw [h2]; exact List.mem_cons_self _ _)
              refine ⟨by simp, ?_⟩
              intro x hx
              rcases List.mem_cons.mp hx with hx | hx
              · subst hx; exact hc
              · exact hw0.2 x hx
            · exact ih w (by rw [h2]; exact List.mem_cons_of_mem _ h)

theorem wordsL_of_word (w : List Char) (hne : w ≠ []) (hw : ∀ c ∈ w, isPyWs c = false) :
    wordsL w = [w] := by
  induction w with
  | nil => exact absurd rfl hne
  | cons c cs ih =>
    have hc : isPyWs c = false := hw c (by simp)
    cases cs with
    | nil => exact wordsL_cons_single c hc
    | cons c2 cs2 =>
      have hc2 : isPyWs c2 = false := hw c2 (by simp)
      rw [wordsL_cons_glue c c2 cs2 hc hc2, ih (by simp) (fun x hx => hw x (by simp [hx]))]

theorem wordsL_word_append (w r : List Char) (hne : w ≠ []) (hw : ∀ c ∈ w, isPyWs c = false) :
    wordsL (w ++ ' ' :: r) = w :: wordsL r := by
  induction w with
  | nil => exact absurd rfl hne
  | cons c cs ih =>
    have hc : isPyWs c = false := hw c (by simp)
    cases cs with
    | nil =>
      rw [show ([c] ++ ' ' :: r) = c :: ' ' :: r from rfl]
      rw [wordsL_cons_break c ' ' r hc (by decide)]
      rw [wordsL_cons_ws ' ' r (by decide)]
    | cons c2 cs2 =>
      have hc2 : isPyWs c2 = false := hw c2 (by simp)
      have hih := ih (by simp) (fun x hx => hw x (by simp [hx]))
      rw [show ((c :: c2 :: cs2) ++ ' ' :: r) = c :: c2 :: (cs2 ++ ' ' :: r) from rfl]
      rw [wordsL_cons_glue c c2 (cs2 ++ ' ' :: r) hc hc2]
      have hih2 : wordsL (c2 :: (cs2 ++ ' ' :: r)) = (c2 :: cs2) :: wordsL r := hih
      rw [hih2]

theorem unwordsL_cons_cons (w x : List Char) (ws : List (List Char)) :
    unwordsL (w :: x :: ws) = w ++ ' ' :: unwordsL (x :: ws) := rfl

theorem wordsL_unwordsL (ws : List (List Char))
    (h : ∀ w ∈ ws, w ≠ [] ∧ ∀ c ∈ w, isPyWs c = false) :
    wordsL (unwordsL ws) = ws := by
  induction ws with
  | nil => rfl
  | cons w rest ih =>
    cases rest with
    | nil =>
      simp only [unwordsL]
      exact wordsL_of_word w (h w (by simp)).1 (h w (by simp)).2
    | cons w2 rest2 =>
      rw [unwordsL_cons_cons]
      rw [wordsL_word_append w _ (h w (by simp)).1 (h w (by simp)).2]
      rw [ih (fun x hx => h x (by simp [hx]))]

theorem unwordsL_ne_nil (w : List Char) (rest : List (List Char)) (hw : w ≠ []) :
    unwordsL (w :: rest) ≠ [] := by
  cases rest with
  | nil => simpa [unwordsL] using hw
  | cons w2 r2 =>
    rw [unwordsL_cons_cons]
    simp

theorem cleanL_eq_nil_iff (t : List Char) : cleanL t = [] ↔ wordsL t = [] := by
  unfold cleanL
  constructor
  · intro h
    cases hw : wordsL t with
    | nil => rfl
    | cons w rest =>
      rw [hw] at h
      exact absurd h (unwordsL_ne_nil w rest (wordsL_sound t w (by rw [hw]; exact List.mem_cons_self _ _)).1)
  · intro h
    rw [h]
    rfl

theorem unwordsL_cons_append (w : List Char) (A B : List (List Char)) (hB : B ≠ []) :
    unwordsL ((w :: A) ++ B) = unwordsL (w :: A) ++ ' ' :: unwordsL B := by
  induction A generalizing w with
  | nil =>
    cases B with
    | nil => exact absurd rfl hB
    | cons b B' => simp [unwordsL]
  | cons w2 A'' ih =>
    calc unwordsL ((w :: w2 :: A'') ++ B)
        = unwordsL (w :: w2 :: (A'' ++ B)) := rfl
      _ = w ++ ' ' :: unwordsL (w2 :: (A'' ++ B)) := unwordsL_cons_cons w w2 (A'' ++ B)
      _ = w ++ ' ' :: unwordsL ((w2 :: A'') ++ B) := rfl
      _ = w ++ ' ' :: (unwordsL (w2 :: A'') ++ ' ' :: unwordsL B) := by rw [ih w2]
      _ = (w ++ ' ' :: unwordsL (w2 :: A'')) ++ ' ' :: unwordsL B := by simp
      _ = unwordsL (w :: w2 :: A'') ++ ' ' :: unwordsL B := by rw [unwordsL_cons_cons]

theorem filter_clean_nil_iff (rest : List (List Char)) :
    (rest.map cleanL).filter (fun t => decide (t ≠ [])) = [] ↔
      (rest.map wordsL).flatten = [] := by
  simp [List.filter_eq_nil_iff, List.flatten_eq_nil_iff, cleanL_eq_nil_iff]

theorem unwordsL_filter_eq (toks : List (List Char)) :
    unwordsL ((toks.map cleanL).filter (fun t => decide (t ≠ []))) =
      unwordsL ((toks.map wordsL).flatten) := by
  induction toks with
  | nil => rfl
  | cons t rest ih =>
    by_cases h : cleanL t = []
    · have hw : wordsL t = [] := (cleanL_eq_nil_iff t).mp h
      simp only [List.map_cons, List.filter_cons, List.flatten_cons, h, hw, List.nil_append]
      simpa using ih
    · have hwne : wordsL t ≠ [] := fun hh => h ((cleanL_eq_nil_iff t).mpr hh)
      simp only [List.map_cons, List.filter_cons, List.flatten_cons]
      rw [if_pos (by simpa using h)]
      by_cases hF : (rest.map cleanL).filter (fun t => decide (t ≠ [])) = []
      · have hFl : (rest.map wordsL).flatten = [] := (filter_clean_nil_iff rest).mp hF
        rw [hF, hFl, List.append_nil]
        rfl
      · have hFl : (rest.map wordsL).flatten ≠ [] := fun hh => hF ((filter_clean_nil_iff rest).mpr hh)
        cases hFe : (rest.map cleanL).filter (fun t => decide (t ≠ [])) with
        | nil => exact absurd hFe hF
        | cons f F' =>
          cases hwt : wordsL t with
          | nil => exact absurd hwt hwne
          | cons w0 W' =>
            rw [unwordsL_cons_cons]
            rw [← hFe, ih]
            have hgood := wordsL_sound t
            rw [hwt] at hgood
            have e1 : unwordsL ((w0 :: W') ++ (rest.map wordsL).flatten) =
                unwordsL (w0 :: W') ++ ' ' :: unwordsL ((rest.map wordsL).flatten) :=
              unwordsL_cons_append w0 W' _ hFl
            have e2 : cleanL t = unwordsL (w0 :: W') := by
              unfold cleanL
              rw [hwt]
            rw [e1, ← e2]

theorem join_tokens_eq (toks : List (List Char)) :
    join_tokens toks = unwordsL ((toks.map wordsL).flatten) := by
  unfold join_tokens
  rw [unwordsL_filter_eq]
  unfold cleanL
  rw [wordsL_unwordsL]
  intro w hw
  rcases List.mem_flatten.mp hw with ⟨lw, hlw, hwlw⟩
  rcases List.mem_map.mp hlw with ⟨t, _, rfl⟩
  exact wordsL_sound t w hwlw

theorem unwordsL_length_le (A B : List (List Char)) :
    (unwordsL A).length ≤ (unwordsL (A ++ B)).length := by
  cases A with
  | nil => simp [unwordsL]
  | cons w A' =>
    cases B with
    | nil => simp
    | cons b B' =>
      rw [unwordsL_cons_append w A' (b :: B') (by simp)]
      simp

theorem mandatoryTitle_le_titleWith (card : Dict) (removed : List String) :
    (mandatoryTitle card).length ≤ (titleWith card removed).length := by
  unfold mandatoryTitle titleWith
  rw [join_tokens_eq, join_tokens_eq, List.map_append, List.flatten_append]
  exact unwordsL_length_le _ _

theorem titleWith_all_inactive (card : Dict) (removed : List String)
    (h : ∀ k ∈ includeOrder, activeVal card removed k = []) :
    titleWith card removed = mandatoryTitle card := by
  unfold titleWith mandatoryTitle
  have hf : (includeOrder.filter (fun k => decide (activeVal card removed k ≠ []))) = [] := by
    rw [List.filter_eq_nil_iff]
    intro a ha
    simp [h a ha]
  rw [hf]
  simp

theorem activeVal_not_mem (card : Dict) (removed : List String) (k : String)
    (h : k ∉ removed) : activeVal card removed k = groupVal card k := if_neg h

theorem activeVal_mem (card : Dict) (removed : List String) (k : String)
    (h : k ∈ removed) : activeVal card removed k = [] := if_pos h

theorem dropLoop_spec (card : Dict) :
    ∀ (rest dropped : List String), rest.Nodup → (∀ k ∈ rest, k ∉ dropped) →
      ∃ e, (dropLoop card rest (titleWith card dropped) dropped).2 = dropped ++ e ∧
        e <+: rest.filter (fun k => decide (groupVal card k ≠ [])) ∧
        (∀ p, p <+: e → p ≠ e → EBAY_TITLE_MAX < (titleWith card (dropped ++ p)).length) ∧
        ((titleWith card dropped).length ≤ EBAY_TITLE_MAX → e = []) ∧
        (dropLoop card rest (titleWith card dropped) dropped).1 =
          titleWith card ((dropLoop card rest (titleWith card dropped) dropped).2) ∧
        (EBAY_TITLE_MAX < (dropLoop card rest (titleWith card dropped) dropped).1.length →
          ∀ k ∈ rest, activeVal card ((dropLoop card rest (titleWith card dropped) dropped).2) k = []) := by
  intro rest
  induction rest with
  | nil =>
    intro dropped _ _
    refine ⟨[], by simp [dropLoop], List.nil_prefix, ?_, fun _ => rfl, rfl, by simp⟩
    intro p hp hne
    exact absurd (List.prefix_nil.mp hp) hne
  | cons k rest ih =>
    intro dropped hnd hdisj
    rcases List.nodup_cons.mp hnd with ⟨hknotin, hndrest⟩
    have hkd : k ∉ dropped := hdisj k (List.mem_cons_self _ _)
    by_cases hfit : (titleWith card dropped).length ≤ EBAY_TITLE_MAX
    · simp only [dropLoop, if_pos hfit]
      refine ⟨[], by simp, List.nil_prefix, ?_, ?_, ?_, ?_⟩
      · intro p hp hne
        exact absurd (List.prefix_nil.mp hp) hne
      · intro hle
        rfl
      · trivial
      · intro hover
        exact absurd hfit (Nat.not_le.mpr hover)
    · by_cases hact : activeVal card dropped k ≠ []
      · simp only [dropLoop, if_neg hfit, if_pos hact]
        have hd' : ∀ k' ∈ rest, k' ∉ dropped ++ [k] := by
          intro k' hk'
          simp only [List.mem_append, List.mem_singleton]
          rintro (hin | rfl)
          · exact hdisj k' (List.mem_cons_of_mem _ hk') hin
          · exact hknotin hk'
        obtain ⟨e', he1, he2, he3, he4, he5, he6⟩ := ih (dropped ++ [k]) hndrest hd'
        have hgk : groupVal card k ≠ [] := by
          rwa [activeVal_not_mem card dropped k hkd] at hact
        refine ⟨k :: e', ?_, ?_, ?_, ?_, he5, ?_⟩
        · rw [he1, List.append_assoc]
          rfl
        · rw [List.filter_cons, if_pos (by simpa using hgk)]
          exact List.cons_prefix_cons.mpr ⟨rfl, he2⟩
        · intro p hp hne
          cases p with
          | nil =>
            rw [List.append_nil]
            exact Nat.not_le.mp hfit
          | cons k'' p' =>
            rcases List.cons_prefix_cons.mp hp with ⟨rfl, hp'⟩
            have hne' : p' ≠ e' := fun hh => hne (by rw [hh])
            have := he3 p' hp' hne'
            rwa [List.append_assoc] at this
        · intro hle
          exact absurd hle hfit
        · intro hover k' hk'
          rcases List.mem_cons.mp hk' with rfl | hk'
          · apply activeVal_mem
            rw [he1]
            simp
          · exact he6 hover k' hk'
      · have hact' : activeVal card dropped k = [] := not_not.mp hact
        simp only [dropLoop, if_neg hfit, if_neg hact]
        have hd'' : ∀ k' ∈ rest, k' ∉ dropped := fun k' h => hdisj k' (List.mem_cons_of_mem _ h)
        obtain ⟨e', he1, he2, he3, he4, he5, he6⟩ := ih dropped hndrest hd''
        have hgk : groupVal card k = [] := by
          rwa [activeVal_not_mem card dropped k hkd] at hact'
        refine ⟨e', he1, ?_, he3, he4, he5, ?_⟩
        · rw [List.filter_cons, if_neg (by simpa using hgk)]
          exact he2
        · intro hover k' hk'
          rcases List.mem_cons.mp hk' with rfl | hk'
          · unfold activeVal
            split
            · rfl
            · exact hgk
          · exact he6 hover k' hk'

theorem includeOrder_sub_dropPriority : ∀ k ∈ includeOrder, k ∈ dropPriority := by
  decide

theorem build_title_main (card : Dict) :
    ((∃ t d, build_ebay_title card = .ok (t, d) ∧ t = titleWith card d ∧
        d <+: dropPriority.filter (fun k => decide (groupVal card k ≠ [])) ∧
        t.length ≤ EBAY_TITLE_MAX ∧
        (∀ p, p <+: d → p ≠ d → EBAY_TITLE_MAX < (titleWith card p).length) ∧
        ((titleWith card []).length ≤ EBAY_TITLE_MAX → d = [])) ∨
      (build_ebay_title card = .error (mandatoryTitle card, (mandatoryTitle card).length) ∧
        EBAY_TITLE_MAX < (mandatoryTitle card).length)) ∧
    ((∃ t n, build_ebay_title card = .error (t, n)) ↔
      EBAY_TITLE_MAX < (mandatoryTitle card).length) := by
  by_cases h0 : EBAY_TITLE_MAX < (titleWith card []).length
  · obtain ⟨e, he1, he2, he3, he4, he5, he6⟩ :=
      dropLoop_spec card dropPriority [] (by decide) (by simp)
    rw [List.nil_append] at he1
    have hb : build_ebay_title card =
        if EBAY_TITLE_MAX < (dropLoop card dropPriority (titleWith card []) []).1.length
        then .error ((dropLoop card dropPriority (titleWith card []) []).1,
          (dropLoop card dropPriority (titleWith card []) []).1.length)
        else .ok ((dropLoop card dropPriority (titleWith card []) []).1,
          (dropLoop card dropPriority (titleWith card []) []).2) := by
      simp only [build_ebay_title, if_pos h0]
    by_cases hov : EBAY_TITLE_MAX < (dropLoop card dropPriority (titleWith card []) []).1.length
    · have hmand : titleWith card ((dropLoop card dropPriority (titleWith card []) []).2) =
          mandatoryTitle card := by
        apply titleWith_all_inactive
        intro k hk
        exact he6 hov k (includeOrder_sub_dropPriority k hk)
      have ht : (dropLoop card dropPriority (titleWith card []) []).1 = mandatoryTitle card := by
        rw [he5, hmand]
      rw [if_pos hov, ht] at hb
      have hlen : EBAY_TITLE_MAX < (mandatoryTitle card).length := by rwa [ht] at hov
      exact ⟨Or.inr ⟨hb, hlen⟩, ⟨fun _ => hlen, fun _ => ⟨_, _, hb⟩⟩⟩
    · rw [if_neg hov] at hb
      refine ⟨Or.inl ⟨_, _, hb, he5, by rw [he1]; exact he2, Nat.not_lt.mp hov, ?_, ?_⟩, ?_⟩
      · intro p hp hne
        rw [he1] at hp hne
        simpa using he3 p hp hne
      · intro hle
        exact absurd h0 (Nat.not_lt.mpr hle)
      · constructor
        · rintro ⟨t, n, herr⟩
          rw [hb] at herr
          exact absurd herr (by simp)
        · intro hm
          have hle : (mandatoryTitle card).length ≤
              (dropLoop card dropPriority (titleWith card []) []).1.length := by
            rw [he5]
            exact mandatoryTitle_le_titleWith card _
          exact absurd (Nat.lt_of_lt_of_le hm hle) hov
  · have hb : build_ebay_title card = .ok (titleWith card [], []) := by
      simp only [build_ebay_title, if_neg h0]
    refine ⟨Or.inl ⟨_, _, hb, rfl, List.nil_prefix, Nat.not_lt.mp h0, ?_, fun _ => rfl⟩, ?_⟩
    · intro p hp hne
      exact absurd (List.prefix_nil.mp hp) hne
    · constructor
      · rintro ⟨t, n, herr⟩
        rw [hb] at herr
        exact absurd herr (by simp)
      · intro hm
        have := mandatoryTitle_le_titleWith card []
        exact absurd (Nat.lt_of_lt_of_le hm this) h0

theorem dget_applyDirect_features (item : Dict) (e : String × JVal) (k : String)
    (hk : k ≠ "Features") (hE : e.1 = "Features") :
    dget (applyDirect item e) k = dget item k := by
  simp only [applyDirect, if_pos hE]
  repeat' split
  all_goals first | rfl | exact dget_dset_ne _ _ _ _ (Ne.symm hk)

theorem foldl_applyDirect_char (l : List (String × JVal)) :
    ∀ (item : Dict) (k : String), k ≠ "Features" →
      dget (l.foldl applyDirect item) k = dget item k ∨
      ∃ s, dget (l.foldl applyDirect item) k = some (JVal.str s) ∧ s ≠ "" ∧
        pyLower (pyStrip s) ∉ bannedLit := by
  induction l with
  | nil => intro item k _; exact Or.inl rfl
  | cons e rest ih =>
    intro item k hk
    rw [List.foldl_cons]
    rcases ih (applyDirect item e) k hk with h | h
    · rw [h]
      by_cases hE : e.1 = "Features"
      · exact Or.inl (dget_applyDirect_features item e k hk hE)
      · simp only [applyDirect, if_neg hE]
        by_cases hv : norm_optional e.2 = ""
        · rw [if_neg (by simpa using hv)]
          exact Or.inl rfl
        · rw [if_pos hv]
          by_cases hek : e.1 = k
          · subst hek
            rw [dget_dset_self]
            exact Or.inr ⟨norm_optional e.2, rfl, hv, (norm_optional_ne_empty_clean e.2 hv).2⟩
          · exact Or.inl (dget_dset_ne _ _ _ _ hek)
    · exact Or.inr h

/-! ## The claims -/

/-- Claim C1: the spec says that a card whose "Autographed" field is "No"
has every `when_no` field copied into the output.  The code disagrees: the
normalizer maps "No" (a banned literal) to the empty string, so the
dependency test `auto.lower() == "no"` can never hold, and the `when_no`
branch is dead.  At the failing input, the configured blank for "Signed By"
is not applied: the source value survives. -/
theorem C1_autograph_when_no_dead :
    dget (build_item_specifics cardAutoNo [] enfAutoNo) "Signed By" =
      some (JVal.str "John Hancock") ∧
    ∀ v : JVal, pyLower (norm_optional v) ≠ "no" :=
  ⟨rfl, pyLower_norm_optional_ne_no⟩

/-- Claim C2: for every card, `build_ebay_title` either returns a title of at
most 80 characters (always a re-assembly of the surviving groups, never a
truncation), or fails with an overflow error carrying the offending title and
its length; and it fails exactly when the cleaned mandatory tokens alone
assemble to more than 80 characters. -/
theorem C2_title_length_invariant (card : Dict) :
    (∀ t d, build_ebay_title card = .ok (t, d) →
      t.length ≤ EBAY_TITLE_MAX ∧ t = titleWith card d) ∧
    (∀ t n, build_ebay_title card = .error (t, n) →
      n = t.length ∧ EBAY_TITLE_MAX < t.length ∧ t = mandatoryTitle card) ∧
    ((∃ t n, build_ebay_title card = .error (t, n)) ↔
      EBAY_TITLE_MAX < (mandatoryTitle card).length) := by
  obtain ⟨hdisj, hiff⟩ := build_title_main card
  refine ⟨?_, ?_, hiff⟩
  · intro t d hok
    rcases hdisj with ⟨t', d', hb, ht', _, hlen, _, _⟩ | ⟨hb, _⟩
    · rw [hok] at hb
      obtain ⟨rfl, rfl⟩ : t = t' ∧ d = d' := by simpa using hb
      exact ⟨hlen, ht'⟩
    · rw [hok] at hb
      simp at hb
  · intro t n herr
    rcases hdisj with ⟨t', d', hb, _, _, _, _, _⟩ | ⟨hb, hlen⟩
    · rw [herr] at hb
      simp at hb
    · rw [herr] at hb
      obtain ⟨rfl, rfl⟩ : t = mandatoryTitle card ∧ n = (mandatoryTitle card).length := by
        simpa using hb
      exact ⟨rfl, hlen, rfl⟩

/-- Witness for C2 at a concrete overflowing card. -/
theorem C2_witness : ∃ t n, build_ebay_title cardOverflow = .error (t, n) :=
  (C2_title_length_invariant cardOverflow).2.2.mpr (by decide)

/-- Claim C3: on success, the dropped-groups list is a prefix of the fixed
drop-priority order filtered to the groups present on the card; the returned
title is the re-assembly without the dropped groups; every proper prefix of
the dropped list still leaves the title over budget (groups are removed one
at a time, re-measuring, stopping as soon as the title fits); and nothing is
dropped when the initial title already fits. -/
theorem C3_drop_priority (card : Dict) :
    ∀ t d, build_ebay_title card = .ok (t, d) →
      d <+: dropPriority.filter (fun k => decide (groupVal card k ≠ [])) ∧
      t = titleWith card d ∧
      (∀ p, p <+: d → p ≠ d → EBAY_TITLE_MAX < (titleWith card p).length) ∧
      ((titleWith card []).length ≤ EBAY_TITLE_MAX → d = []) := by
  intro t d hok
  obtain ⟨hdisj, _⟩ := build_title_main card
  rcases hdisj with ⟨t', d', hb, ht', hpre, _, hstop, hinit⟩ | ⟨hb, _⟩
  · rw [hok] at hb
    obtain ⟨rfl, rfl⟩ : t = t' ∧ d = d' := by simpa using hb
    exact ⟨hpre, ht', hstop, hinit⟩
  · rw [hok] at hb
    simp at hb

/-- Witness for C3 at a card whose overlong team city is dropped. -/
theorem C3_witness :
    ["team_city"] <+: dropPriority.filter (fun k => decide (groupVal cardDropCity k ≠ [])) :=
  (C3_drop_priority cardDropCity "2023 Topps Chrome Jane Doe 15".data ["team_city"] (by rfl)).1

/-- Claim C4: serial canonicalization keeps the numerator exactly for
first = 1 or first = denominator and drops it otherwise — universally, for
every input whose rewritten form matches a full fraction with a positive
denominator — accepts bare positive denominators, and yields no result
(never an error) when the matched denominator is not a positive integer.
(For a matched digit group the only non-positive integer value is 0.) -/
theorem C4_serial_canonicalization :
    parse_serial_for_ebay (.str "1/99") = some "1/99" ∧
    parse_serial_for_ebay (.str "50/99") = some "/99" ∧
    parse_serial_for_ebay (.str "99/99") = some "99/99" ∧
    parse_serial_for_ebay (.str "/25") = some "/25" ∧
    parse_serial_for_ebay (.str "0/10") = some "/10" ∧
    (∀ v a b, findFrac (subOfL (norm_optional v).data) = some (a, b) → digitsToNat b ≠ 0 →
      parse_serial_for_ebay v =
        some (if digitsToNat a = 1 ∨ digitsToNat a = digitsToNat b
          then toString (digitsToNat a) ++ "/" ++ toString (digitsToNat b)
          else "/" ++ toString (digitsToNat b))) ∧
    (∀ v b, findFrac (subOfL (norm_optional v).data) = none →
      findSlashDenom (subOfL (norm_optional v).data) = some b → digitsToNat b ≠ 0 →
      parse_serial_for_ebay v = some ("/" ++ toString (digitsToNat b))) ∧
    (∀ v a b, findFrac (subOfL (norm_optional v).data) = some (a, b) → digitsToNat b = 0 →
      parse_serial_for_ebay v = none) ∧
    (∀ v b, findFrac (subOfL (norm_optional v).data) = none →
      findSlashDenom (subOfL (norm_optional v).data) = some b → digitsToNat b = 0 →
      parse_serial_for_ebay v = none) := by
  refine ⟨rfl, rfl, rfl, rfl, rfl, ?_, ?_, ?_, ?_⟩
  · intro v a b hf hz
    simp only [parse_serial_for_ebay]
    by_cases hs : norm_optional v = ""
    · rw [hs] at hf
      exact Option.noConfusion hf
    · rw [if_neg hs, hf]
      simp only [if_neg hz]
      split <;> rfl
  · intro v b hf hsl hz
    simp only [parse_serial_for_ebay]
    by_cases hs : norm_optional v = ""
    · rw [hs] at hsl
      exact Option.noConfusion hsl
    · rw [if_neg hs, hf, hsl]
      simp only [if_neg hz]
  · intro v a b hf hz
    simp only [parse_serial_for_ebay]
    by_cases hs : norm_optional v = ""
    · rw [if_pos hs]
    · rw [if_neg hs, hf]
      simp [hz]
  · intro v b hf hsl hz
    simp only [parse_serial_for_ebay]
    by_cases hs : norm_optional v = ""
    · rw [if_pos hs]
    · rw [if_neg hs, hf, hsl]
      simp [hz]

/-- Witness for C4: the universal fraction rule at "7/25" (numerator
dropped), the universal denominator-only rule at "/42", and the no-result
clause at the zero denominator "5/0". -/
theorem C4_witness :
    parse_serial_for_ebay (.str "7/25") = some "/25" ∧
    parse_serial_for_ebay (.str "/42") = some "/42" ∧
    parse_serial_for_ebay (.str "5/0") = none := by
  refine ⟨?_, ?_, ?_⟩
  · exact (C4_serial_canonicalization.2.2.2.2.2.1 (.str "7/25") ['7'] ['2', '5']
      (by rfl) (by decide)).trans (by decide)
  · exact (C4_serial_canonicalization.2.2.2.2.2.2.1 (.str "/42") ['4', '2']
      (by rfl) (by rfl) (by decide)).trans (by decide)
  · exact C4_serial_canonicalization.2.2.2.2.2.2.2.1 (.str "5/0") ['5'] ['0'] (by rfl) (by rfl)

/-- Counterexample to claim C5: the spec says "of 10" yields no result, but
the formatter rewrites the whole word `of` to `/` and then matches the
denominator-only pattern, producing "/10". -/
theorem C5_counterexample : parse_serial_for_ebay (.str "of 10") ≠ none := by
  rw [show parse_serial_for_ebay (.str "of 10") = some "/10" from rfl]
  simp

/-- Claim C5 as amended: for the input "of 10" the title-mode serial
formatter yields "/10" (the denominator-only form), and a card whose serial
field is "of 10" contributes the group value "/10" to the title. -/
theorem C5_amended :
    parse_serial_for_ebay (.str "of 10") = some "/10" ∧
    groupVal cardOfTen "serial" = "/10".data :=
  ⟨rfl, rfl⟩

/-- Claim C6: whenever the raw serial-number field yields a nonempty bare
denominator, the final "Print Run" equals that denominator, overriding every
earlier layer including a manually supplied value. -/
theorem C6_print_run_override (card globals enforced : Dict)
    (h : serial_denominator_only_no_slash (cget card "serial_number") ≠ "") :
    dget (build_item_specifics card globals enforced) "Print Run" =
      some (JVal.str (serial_denominator_only_no_slash (cget card "serial_number"))) := by
  unfold build_item_specifics
  rw [dget_step9_ne _ _ _ (by decide)]
  exact dget_step8_set _ _ h

/-- Witness for C6: serial "12/99" with manual Print Run "50" ends as "99". -/
theorem C6_witness :
    dget (build_item_specifics cardSerialPR [] []) "Print Run" = some (JVal.str "99") := by
  have h := C6_print_run_override cardSerialPR [] [] (by decide)
  rwa [show serial_denominator_only_no_slash (cget cardSerialPR "serial_number") = "99" from rfl]
    at h

/-- Claim C7: the field normalizer agrees pointwise with the contract of
spec section 4.1 (null, boolean false, empty or whitespace-only strings, and
banned lowercased literals map to blank; other strings are trimmed; every
non-string value maps to blank); it is a pure total function by
construction. -/
theorem C7_normalizer_contract (v : JVal) : norm_optional v = normalizerSpec v := by
  cases v <;> rfl

/-- Counterexample to claim C8: configuration values are copied into the
output verbatim, without normalization: a global default whose value is the
banned literal "no" survives into the final ItemSpecifics. -/
theorem C8_counterexample :
    dget (build_item_specifics [] globalsRawNo []) "Foo" = some (JVal.str "no") := rfl

/-- Claim C8 as amended: the normalizer guarantee holds for the card-derived
direct-mapping layer, not for configuration-copied values: any non-Features
aspect the direct-mapping layer writes carries a nonempty normalizer output
whose lowercased trimmed form is none of the banned literals. -/
theorem C8_amended (card item : Dict) (k : String) (hk : k ≠ "Features") :
    dget (step2 card item) k = dget item k ∨
    ∃ s, dget (step2 card item) k = some (JVal.str s) ∧ s ≠ "" ∧
      pyLower (pyStrip s) ∉ bannedLit := by
  unfold step2
  exact foldl_applyDirect_char (directMap card) item k hk

/-- Witness for C8's amended form at a concrete card. -/
theorem C8_witness :
    dget (step2 cardBrandPad []) "Manufacturer" = dget ([] : Dict) "Manufacturer" ∨
    ∃ s, dget (step2 cardBrandPad []) "Manufacturer" = some (JVal.str s) ∧ s ≠ "" ∧
      pyLower (pyStrip s) ∉ bannedLit :=
  C8_amended cardBrandPad [] "Manufacturer" (by decide)

/-- Claim C9: when a Card Thickness conditional is configured and the
Features value going into the conditional layer contains the substring
"Memorabilia" (list joined to text, or string), the final Card Thickness is
the empty string: the memorabilia override runs after the configured default
and takes precedence unconditionally, and no later layer touches the field. -/
theorem C9_memorabilia_thickness (card globals enforced : Dict)
    (ca ct : List (String × JVal))
    (hca : (dget enforced "conditional_aspects").getD (.dict []) = .dict ca)
    (hct : dget ca "Card Thickness" = some (.dict ct))
    (hmem : hasSub "Memorabilia".data
      (featsText (cgetD (step3 card enforced (step2 card (step1 globals)))
        "Features" (.list []))).data = true) :
    dget (build_item_specifics card globals enforced) "Card Thickness" =
      some (JVal.str "") := by
  unfold build_item_specifics
  rw [dget_step9_ne _ _ _ (by decide), dget_step8_ne _ _ _ (by decide),
    dget_step7_ne _ _ _ (by decide), dget_step6_ne _ _ _ (by decide),
    dget_step5_ne _ _ _ _ (by decide) (by decide) (by decide) (by decide)]
  exact step4_thickness enforced _ ca ct hca hct hmem

/-- Witness for C9 at a concrete memorabilia card. -/
theorem C9_witness :
    dget (build_item_specifics cardMemo [] enfThick) "Card Thickness" =
      some (JVal.str "") :=
  C9_memorabilia_thickness cardMemo [] enfThick
    [("Card Thickness", .dict [("default", .str "20 Pt.")])]
    [("default", .str "20 Pt.")] (by rfl) (by rfl) (by rfl)

/-- Claim C10: every key of the global-defaults mapping is a key of the final
ItemSpecifics: later layers may overwrite values but never remove keys. -/
theorem C10_global_keys_preserved (card globals enforced : Dict) (k : String)
    (h : k ∈ dkeys globals) :
    k ∈ dkeys (build_item_specifics card globals enforced) := by
  unfold build_item_specifics
  apply step9_keys
  apply step8_keys
  apply step7_keys
  apply step6_keys
  apply step5_keys
  apply step4_keys
  apply step3_keys
  apply step2_keys
  unfold step1
  exact foldl_dset_keys globals [] k (Or.inr h)

/-- Witness for C10 at a concrete global default. -/
theorem C10_witness :
    "Condition" ∈ dkeys (build_item_specifics [] globalsCond []) :=
  C10_global_keys_preserved [] globalsCond [] "Condition" (by decide)
